import Mathlib

set_option maxHeartbeats 2000000
set_option maxRecDepth 4000

/-!
# Verification of the `baseballgui` trajectory core

Shallow embedding of the physics core of `cprevallet/baseballgui`
(`trajectory/trajectory.go`) and of the projectile / collision bookkeeping of
the GUI front ends, over exact rational arithmetic.

Modelling conventions:
* `float64` arithmetic is modelled by exact arithmetic on `ℚ`; decimal
  literals of the Go source denote their exact rational values, and `math.Pi`
  denotes the exact rational value of the `float64` constant.
* The transcendental library calls (`math.Sqrt`, `math.Pow`, `math.Exp`,
  `math.Cos`, `math.Sin`) are kept abstract as an oracle `MathEnv` of
  rational-valued functions, so a theorem quantified over every `MathEnv`
  holds in particular for the rounded functions computed by the real library.
* Division by zero yields `0` in this model (the `ℚ` convention); the IEEE
  NaN behaviour of the one documented degenerate case (zero velocity) is
  tracked separately by the `Flt` model at the end of the definitions.
* The possibly non-terminating boundary-crossing loop of `Trajectory` is
  embedded with an explicit fuel parameter; divergence of the Go loop
  corresponds to `none` for every fuel.
-/

/-- Oracle for the `float64` transcendental functions of Go's `math` package
used by the trajectory core. -/
structure MathEnv where
  sqrt : ℚ → ℚ
  pow : ℚ → ℚ → ℚ
  exp : ℚ → ℚ
  cos : ℚ → ℚ
  sin : ℚ → ℚ

/-- A 2-vector of rationals, modelling Go's `[2]float64`. -/
abbrev Vec2 := ℚ × ℚ

/-- `TrajectoryPoint` from trajectory.go: time, position, velocity and the
cached acceleration. -/
@[ext]
structure TrajectoryPoint where
  Time : ℚ
  Position : Vec2
  Velocity : Vec2
  Acceleration : Vec2
deriving DecidableEq, Repr

/-- The exact rational value of the `float64` constant `math.Pi`. -/
def piF : ℚ := 884279719003555 / 281474976710656

/-- `ft2meters` from trajectory.go. -/
def ft2meters : ℚ := 0.3048

/-- `g` (acceleration of gravity) from trajectory.go. -/
def g : ℚ := 9.8066

/-- `lbs2kg` from trajectory.go. -/
def lbs2kg : ℚ := 0.45359237

/-- `rhozero` (sea-level air density) from trajectory.go. -/
def rhozero : ℚ := 1.2250

/-- `diam` (cannonball diameter) from trajectory.go. -/
def diam : ℚ := 4.95 / 12 * ft2meters

/-- `mass` (cannonball mass) from trajectory.go. -/
def mass : ℚ := 5.4

/-- `sref` (frontal area) from trajectory.go. -/
def sref : ℚ := 0.25 * piF * diam * diam

/-- `cdSphere` from trajectory.go: drag coefficient of a sphere as a function
of the Reynolds number, by six nested `if`s with inclusive upper bounds. -/
def cdSphere (env : MathEnv) (r : ℚ) : ℚ :=
  if r ≤ 0 then 0
  else if r ≤ 1.0 then 24.0 / r
  else if r ≤ 400.0 then 24 * env.pow r (-0.646)
  else if r ≤ 300000 then 0.5
  else if r ≤ 2000000 then 3.66e-4 * env.pow r 0.4275
  else 0.18

/-- `viscosity` from trajectory.go: Sutherland's formula. -/
def viscosity (env : MathEnv) (theta : ℚ) : ℚ :=
  let betavisc : ℚ := 1.458e-6
  let suth : ℚ := 110.4
  let tzero : ℚ := 288.15
  let temp := tzero * theta
  betavisc * env.sqrt (temp * temp * temp) / (temp + suth)

/-- `simpleAtmosphere` from trajectory.go; returns `(sigma, delta, theta)`. -/
def simpleAtmosphere (env : MathEnv) (alt : ℚ) : ℚ × ℚ × ℚ :=
  let rearth : ℚ := 6369.0
  let gmr : ℚ := 34.163195
  let h := alt * rearth / (alt + rearth)
  if h < 11.0 then
    let theta := 1.0 + (-6.5 / 288.15) * h
    let delta := env.pow theta (gmr / 6.5)
    (delta / theta, delta, theta)
  else
    let theta := 216.65 / 288.15
    let delta := 0.2233611 * env.exp (-gmr * (h - 11.0) / 216.65)
    (delta / theta, delta, theta)

/-- `accel` from trajectory.go: acceleration of the spherical projectile;
drag from the atmosphere model plus gravity.  The `time` argument is unused,
as in the source.  (`vertical = (0, 1)` is inlined componentwise.) -/
def accel (env : MathEnv) (time : ℚ) (position velocity : Vec2) : Vec2 :=
  let vsq := env.pow velocity.1 2.0 + env.pow velocity.2 2.0
  let vmag := env.sqrt vsq
  let unitVelocity : Vec2 := (velocity.1 / vmag, velocity.2 / vmag)
  let atm := simpleAtmosphere env (0.001 * position.2)
  let density := atm.1 * rhozero
  let q := 0.5 * density * vsq
  let reynolds := density * vmag * diam / viscosity env atm.2.2
  let cd := cdSphere env reynolds
  let dragMagnitude := cd * q * sref
  let drag : Vec2 := (-dragMagnitude * unitVelocity.1, -dragMagnitude * unitVelocity.2)
  (drag.1 / mass - g * 0.0, drag.2 / mass - g * 1.0)

/-- `correctFinalPosition` from trajectory.go: linear interpolation of the two
straddling points at the initial altitude. -/
def correctFinalPosition (initialAltitude : ℚ) (a1 a2 : TrajectoryPoint) :
    TrajectoryPoint :=
  let fraction := (initialAltitude - a1.Position.2) / (a2.Position.2 - a1.Position.2)
  { Time := a1.Time + fraction * (a2.Time - a1.Time)
    Position := (a1.Position.1 + fraction * (a2.Position.1 - a1.Position.1),
                 a1.Position.2 + fraction * (a2.Position.2 - a1.Position.2))
    Velocity := (a1.Velocity.1 + fraction * (a2.Velocity.1 - a1.Velocity.1),
                 a1.Velocity.2 + fraction * (a2.Velocity.2 - a1.Velocity.2))
    Acceleration := (a1.Acceleration.1 + fraction * (a2.Acceleration.1 - a1.Acceleration.1),
                     a1.Acceleration.2 + fraction * (a2.Acceleration.2 - a1.Acceleration.2)) }

/-- `baseballKutta` from trajectory.go: one 4th-order Runge-Kutta step of the
coupled position/velocity system, with the acceleration of the output point
recomputed at the final state. -/
def baseballKutta (env : MathEnv) (p1 : TrajectoryPoint) (h : ℚ) : TrajectoryPoint :=
  let t := p1.Time
  let x := p1.Position
  let v := p1.Velocity
  let a1 := accel env t x v
  let dx1 : Vec2 := (h * v.1, h * v.2)
  let dv1 : Vec2 := (h * a1.1, h * a1.2)
  let x2 : Vec2 := (x.1 + dx1.1 / 2.0, x.2 + dx1.2 / 2.0)
  let v2 : Vec2 := (v.1 + dv1.1 / 2.0, v.2 + dv1.2 / 2.0)
  let a2 := accel env (t + h / 2.0) x2 v2
  let dx2 : Vec2 := (h * (v.1 + dv1.1 / 2.0), h * (v.2 + dv1.2 / 2.0))
  let dv2 : Vec2 := (h * a2.1, h * a2.2)
  let x3 : Vec2 := (x.1 + dx2.1 / 2.0, x.2 + dx2.2 / 2.0)
  let v3 : Vec2 := (v.1 + dv2.1 / 2.0, v.2 + dv2.2 / 2.0)
  let a3 := accel env (t + h / 2.0) x3 v3
  let dx3 : Vec2 := (h * (v.1 + dv2.1 / 2.0), h * (v.2 + dv2.2 / 2.0))
  let dv3 : Vec2 := (h * a3.1, h * a3.2)
  let x4 : Vec2 := (x.1 + dx3.1, x.2 + dx3.2)
  let v4 : Vec2 := (v.1 + dv3.1, v.2 + dv3.2)
  let a4 := accel env (t + h) x4 v4
  let dx4 : Vec2 := (h * (v.1 + dv3.1), h * (v.2 + dv3.2))
  let dv4 : Vec2 := (h * a4.1, h * a4.2)
  let newTime := t + h
  let newPosition : Vec2 :=
    (p1.Position.1 + (dx1.1 + dx2.1 + dx2.1 + dx3.1 + dx3.1 + dx4.1) / 6.0,
     p1.Position.2 + (dx1.2 + dx2.2 + dx2.2 + dx3.2 + dx3.2 + dx4.2) / 6.0)
  let newVelocity : Vec2 :=
    (p1.Velocity.1 + (dv1.1 + dv2.1 + dv2.1 + dv3.1 + dv3.1 + dv4.1) / 6.0,
     p1.Velocity.2 + (dv1.2 + dv2.2 + dv2.2 + dv3.2 + dv3.2 + dv4.2) / 6.0)
  { Time := newTime
    Position := newPosition
    Velocity := newVelocity
    Acceleration := accel env newTime newPosition newVelocity }

/-- The seed point built at the top of `Trajectory` in trajectory.go: time 0,
position `(0, initialAltitude)`, velocity resolved from the launch angle in
degrees, acceleration computed from that state. -/
def mkSeed (env : MathEnv) (initialAltitude initialVelocity initialTheta : ℚ) :
    TrajectoryPoint :=
  let position : Vec2 := (0.0, initialAltitude)
  let velocity : Vec2 := (initialVelocity * env.cos (initialTheta * piF / 180.0),
                          initialVelocity * env.sin (initialTheta * piF / 180.0))
  { Time := 0.0
    Position := position
    Velocity := velocity
    Acceleration := accel env 0.0 position velocity }

/-- Default value standing for Go's zero `TrajectoryPoint` (used only to give
total list indexing; every access in `Trajectory` is in range). -/
def defaultPoint : TrajectoryPoint := ⟨0, (0, 0), (0, 0), (0, 0)⟩

/-- The do-while boundary-crossing loop of `Trajectory` (trajectory.go lines
227-234), with an explicit fuel parameter: each iteration appends one RK4
point and continues while the new altitude exceeds the initial altitude.
`none` means the fuel was exhausted before the boundary was crossed. -/
def trajectoryLoop (env : MathEnv) (dt initialAltitude : ℚ) :
    Nat → TrajectoryPoint → List TrajectoryPoint → Option (List TrajectoryPoint)
  | 0, _, _ => none
  | fuel + 1, cur, history =>
    let newTrajectory := baseballKutta env cur dt
    let history2 := history ++ [newTrajectory]
    if initialAltitude < newTrajectory.Position.2 then
      trajectoryLoop env dt initialAltitude fuel newTrajectory history2
    else
      some history2

/-- `Trajectory` from trajectory.go: seed, boundary-crossing loop, replacement
of the last point by the interpolated boundary point, optional re-basing of
all altitudes by the (still unmodified) altitude of the first point.  The Go
normalization loop runs downward, so every subtraction uses the original
`history[0]` altitude; it is rendered here as a map. -/
def Trajectory (env : MathEnv) (initialAltitude initialVelocity initialTheta dt : ℚ)
    (normalized : Bool) (fuel : Nat) : Option (List TrajectoryPoint) :=
  let seed := mkSeed env initialAltitude initialVelocity initialTheta
  match trajectoryLoop env dt initialAltitude fuel seed [seed] with
  | none => none
  | some history =>
    let corrected := correctFinalPosition initialAltitude
      (history.getD (history.length - 2) defaultPoint)
      (history.getLastD defaultPoint)
    let history2 := history.dropLast ++ [corrected]
    let h0 := (history2.headD defaultPoint).Position.2
    some (if normalized then
            history2.map (fun p => ⟨p.Time, (p.Position.1, p.Position.2 - h0),
                                    p.Velocity, p.Acceleration⟩)
          else history2)

/-- Iterates of the RK4 step with fixed time step, starting from a point:
`iterP env dt p n` is the point after `n` steps. -/
def iterP (env : MathEnv) (dt : ℚ) (p : TrajectoryPoint) : Nat → TrajectoryPoint
  | 0 => p
  | n + 1 => baseballKutta env (iterP env dt p n) dt

/-- Spec-side definition (§4.5), written from the spec's words: the classic
4-stage Runge-Kutta scheme on the coupled position/velocity system.  The
derivative of the state `(x, v)` is `(v, accel t x v)`; the four slopes are
evaluated at the start, at two midpoints advanced by half a step along the
previous slope, and at the endpoint, and are combined with weights
`1,2,2,1 / 6`; the output acceleration is recomputed at the final state. -/
def rk4SpecStep (env : MathEnv) (p : TrajectoryPoint) (h : ℚ) : TrajectoryPoint :=
  let t := p.Time
  let x := p.Position
  let v := p.Velocity
  let k1x : Vec2 := v
  let k1v : Vec2 := accel env t x v
  let s2x : Vec2 := (x.1 + h / 2 * k1x.1, x.2 + h / 2 * k1x.2)
  let s2v : Vec2 := (v.1 + h / 2 * k1v.1, v.2 + h / 2 * k1v.2)
  let k2x : Vec2 := s2v
  let k2v : Vec2 := accel env (t + h / 2) s2x s2v
  let s3x : Vec2 := (x.1 + h / 2 * k2x.1, x.2 + h / 2 * k2x.2)
  let s3v : Vec2 := (v.1 + h / 2 * k2v.1, v.2 + h / 2 * k2v.2)
  let k3x : Vec2 := s3v
  let k3v : Vec2 := accel env (t + h / 2) s3x s3v
  let s4x : Vec2 := (x.1 + h * k3x.1, x.2 + h * k3x.2)
  let s4v : Vec2 := (v.1 + h * k3v.1, v.2 + h * k3v.2)
  let k4x : Vec2 := s4v
  let k4v : Vec2 := accel env (t + h) s4x s4v
  let newPosition : Vec2 :=
    (x.1 + h / 6 * (k1x.1 + 2 * k2x.1 + 2 * k3x.1 + k4x.1),
     x.2 + h / 6 * (k1x.2 + 2 * k2x.2 + 2 * k3x.2 + k4x.2))
  let newVelocity : Vec2 :=
    (v.1 + h / 6 * (k1v.1 + 2 * k2v.1 + 2 * k3v.1 + k4v.1),
     v.2 + h / 6 * (k1v.2 + 2 * k2v.2 + 2 * k3v.2 + k4v.2))
  { Time := t + h
    Position := newPosition
    Velocity := newVelocity
    Acceleration := accel env (t + h) newPosition newVelocity }

/-- Modelled from the spec: the exported `trajectory.Accel` called by the GUI
front ends is not under src/ (only the unexported `accel` is); per §4.4 it is
the Acceleration Function, i.e. `accel`. -/
def Accel (env : MathEnv) (time : ℚ) (position velocity : Vec2) : Vec2 :=
  accel env time position velocity

/-- Modelled from the spec: the exported `trajectory.UpdateRK4` called by the
GUI front ends is not under src/; per §4.5/§4.8 it is the RK4 Step applied by
`advance(dt)`, i.e. `baseballKutta`. -/
def UpdateRK4 (env : MathEnv) (p : TrajectoryPoint) (dt : ℚ) : TrajectoryPoint :=
  baseballKutta env p dt

/-- `pixel.Rect` of the external faiface/pixel library: an axis-aligned
rectangle given by its `Min` and `Max` corners. -/
@[ext]
structure Rect where
  Min : Vec2
  Max : Vec2
deriving DecidableEq, Repr

/-- `pixel.R(minX, minY, maxX, maxY)` from the pixel library. -/
def Rect.R (minX minY maxX maxY : ℚ) : Rect := ⟨(minX, minY), (maxX, maxY)⟩

/-- `Rect.Norm` from the pixel library (geometry.go): reorders the corners so
that width and height are non-negative. -/
def Rect.norm (r : Rect) : Rect :=
  ⟨(min r.Min.1 r.Max.1, min r.Min.2 r.Max.2),
   (max r.Min.1 r.Max.1, max r.Min.2 r.Max.2)⟩

/-- `Rect.Intersect` from the pixel library (geometry.go): the maximal
rectangle covered by both normalized inputs, and the zero rectangle
`R(0,0,0,0)` when they do not overlap.  The library builds the candidate
rectangle `t` and tests `t.Min.X >= t.Max.X || t.Min.Y >= t.Max.Y`; the
candidate's fields are inlined here.  The guard is inclusive (`>=`), so
rectangles touching along an edge count as not overlapping. -/
def Rect.intersect (r s : Rect) : Rect :=
  if min r.Max.1 s.Max.1 ≤ max r.Min.1 s.Min.1 ∨
      min r.Max.2 s.Max.2 ≤ max r.Min.2 s.Min.2 then
    Rect.R 0 0 0 0
  else
    Rect.R (max r.Min.1 s.Min.1) (max r.Min.2 s.Min.2)
      (min r.Max.1 s.Max.1) (min r.Max.2 s.Max.2)

/-- `Rect.Moved` from the pixel library: translate both corners by a delta. -/
def Rect.moved (r : Rect) (delta : Vec2) : Rect :=
  ⟨(r.Min.1 + delta.1, r.Min.2 + delta.2), (r.Max.1 + delta.1, r.Max.2 + delta.2)⟩

/-- `Rect.Center` from the pixel library: the midpoint of the corners. -/
def Rect.center (r : Rect) : Vec2 :=
  ((r.Min.1 + r.Max.1) / 2, (r.Min.2 + r.Max.2) / 2)

/-- The closed planar region covered by a rectangle. -/
def Rect.toSet (r : Rect) : Set Vec2 :=
  {v | r.Min.1 ≤ v.1 ∧ v.1 ≤ r.Max.1 ∧ r.Min.2 ≤ v.2 ∧ v.2 ≤ r.Max.2}

/-- The open interior of the planar region covered by a rectangle. -/
def Rect.interiorSet (r : Rect) : Set Vec2 :=
  {v | r.Min.1 < v.1 ∧ v.1 < r.Max.1 ∧ r.Min.2 < v.2 ∧ v.2 < r.Max.2}

/-- The `Projectile` of the target-shooting front end (src/unnamed/part_001):
a trajectory point plus an on-screen bounding rectangle.  The sprite pointer
is presentation state and is not modelled. -/
structure Projectile where
  trj : TrajectoryPoint
  rect : Rect
deriving DecidableEq, Repr

/-- `Projectile.fireProjectile` from src/unnamed/part_001 (lines 271-290):
seeds the trajectory point exactly as `Trajectory` does and resets the
bounding rectangle to `pixel.R(-1, -1, 1, 1)`. -/
def fireProjectile (env : MathEnv)
    (initialAltitude initialAngle initialVelocity : ℚ) : Projectile :=
  let position : Vec2 := (0.0, initialAltitude)
  let velocity : Vec2 := (initialVelocity * env.cos (initialAngle * piF / 180.0),
                          initialVelocity * env.sin (initialAngle * piF / 180.0))
  { trj := { Time := 0.0
             Position := position
             Velocity := velocity
             Acceleration := Accel env 0.0 position velocity }
    rect := Rect.R (-1) (-1) 1 1 }

/-- `Projectile.updateTrajectory` from src/unnamed/part_001 (lines 294-304):
one RK4 step, then translate the rectangle by the position delta and replace
the stored point. -/
def updateTrajectory (env : MathEnv) (p : Projectile) (dt : ℚ) : Projectile :=
  let newTrajectory := UpdateRK4 env p.trj dt
  let newVec : Vec2 := (newTrajectory.Position.1 - p.trj.Position.1,
                        newTrajectory.Position.2 - p.trj.Position.2)
  { trj := newTrajectory
    rect := p.rect.moved newVec }

/-- `n` successive `updateTrajectory` calls with the same `dt`. -/
def advanceN (env : MathEnv) (dt : ℚ) (p : Projectile) : Nat → Projectile
  | 0 => p
  | n + 1 => updateTrajectory env (advanceN env dt p n) dt

/-- `Target.detectCollision` from src/unnamed/part_001 (lines 312-325): the
hit flag starts false and is set whenever the normalized target rectangle and
a normalized projectile rectangle intersect in a non-zero rectangle. -/
def detectCollision (targetRect : Rect) (ps : List Projectile) : Bool :=
  let tNormed := targetRect.norm
  ps.foldl
    (fun hit prj =>
      if tNormed.intersect prj.rect.norm ≠ Rect.R 0 0 0 0 then true else hit)
    false

/-- A concrete oracle making the drag force vanish identically (its `sqrt` is
the constant 0, so the modelled unit velocity is the zero vector and the
acceleration is pure gravity); used for concrete terminating runs. -/
def env0 : MathEnv :=
  { sqrt := fun _ => 0
    pow := fun _ _ => 0
    exp := fun _ => 0
    cos := fun _ => 1
    sin := fun _ => 0 }

/-- A concrete oracle with constant-1 `sqrt` and `pow` (so the modelled speed
and dynamic-pressure factors are constant but the air density still varies
with altitude, keeping the acceleration a nonlinear function of the state);
its `cos`/`sin` model a vertical launch.  Used for concrete runs that exercise
the interpolated final point. -/
def env1 : MathEnv :=
  { sqrt := fun _ => 1
    pow := fun _ _ => 1
    exp := fun _ => 1
    cos := fun _ => 0
    sin := fun _ => 1 }

/-- The history of the terminating run `Trajectory env1 0 6 90 1 false 5`
(vertical launch at 6 m/s, one-second step: two RK4 steps, then the boundary
correction). -/
def cexHistory : List TrajectoryPoint := (Trajectory env1 0 6 90 1 false 5).getD []

/-- The corrected final point of `cexHistory`. -/
def cexFinal : TrajectoryPoint := cexHistory.getLastD defaultPoint

/-- The interpolated boundary point of a run that crosses at step `K`:
`correctFinalPosition` applied to the two straddling iterates. -/
def correctedAt (env : MathEnv) (A V θ dt : ℚ) (K : Nat) : TrajectoryPoint :=
  correctFinalPosition A (iterP env dt (mkSeed env A V θ) (K - 1))
    (iterP env dt (mkSeed env A V θ) K)

/-- The un-normalized history of a batch run that crosses the boundary at step
`K`: the first `K` RK4 iterates of the seed (the seed itself first) followed
by the corrected final point. -/
def rawHist (env : MathEnv) (A V θ dt : ℚ) (K : Nat) : List TrajectoryPoint :=
  (List.range K).map (fun i => iterP env dt (mkSeed env A V θ) i) ++ [correctedAt env A V θ dt K]

/-- Re-basing of one point by the initial altitude (the normalized output). -/
def normPt (A : ℚ) (p : TrajectoryPoint) : TrajectoryPoint :=
  ⟨p.Time, (p.Position.1, p.Position.2 - A), p.Velocity, p.Acceleration⟩

/-- NaN-tracking model of `float64` for the degenerate zero-velocity analysis
(C6): a value is either a finite rational or the non-finite contaminant
`nan`.  Arithmetic on finite values is exact rational arithmetic; any
operation with a `nan` operand yields `nan` (as IEEE arithmetic does,
including `0 * NaN = NaN`), and a zero divisor yields `nan` (IEEE gives NaN
for `0/0` — the division reached by the zero-velocity path — and an infinity
for a nonzero dividend over zero; both are non-finite contaminants and are
collapsed to `nan` here, and no such division occurs in the executions
analysed below). -/
inductive Flt where
  | fin (q : ℚ)
  | nan
deriving DecidableEq, Repr

def Flt.add : Flt → Flt → Flt
  | fin a, fin b => fin (a + b)
  | _, _ => nan

def Flt.sub : Flt → Flt → Flt
  | fin a, fin b => fin (a - b)
  | _, _ => nan

def Flt.mul : Flt → Flt → Flt
  | fin a, fin b => fin (a * b)
  | _, _ => nan

def Flt.div : Flt → Flt → Flt
  | fin a, fin b => if b = 0 then nan else fin (a / b)
  | _, _ => nan

def Flt.neg : Flt → Flt
  | fin a => fin (-a)
  | nan => nan

instance : Add Flt := ⟨Flt.add⟩

instance : Sub Flt := ⟨Flt.sub⟩

instance : Mul Flt := ⟨Flt.mul⟩

instance : Div Flt := ⟨Flt.div⟩

instance : Neg Flt := ⟨Flt.neg⟩

instance (n : Nat) : OfNat Flt n := ⟨Flt.fin (OfNat.ofNat n)⟩

instance : OfScientific Flt := ⟨fun m e b => Flt.fin (OfScientific.ofScientific m e b)⟩

/-- IEEE-style `<` as a boolean: any comparison with `nan` is false. -/
def Flt.blt : Flt → Flt → Bool
  | fin a, fin b => decide (a < b)
  | _, _ => false

/-- IEEE-style `≤` as a boolean: any comparison with `nan` is false. -/
def Flt.ble : Flt → Flt → Bool
  | fin a, fin b => decide (a ≤ b)
  | _, _ => false

/-- `math.Sqrt` over `Flt`: `nan` on `nan` (IEEE) and on negative arguments;
the oracle value of `MathEnv` otherwise. -/
def Flt.sqrtF (env : MathEnv) : Flt → Flt
  | fin q => if q < 0 then nan else fin (env.sqrt q)
  | nan => nan

/-- `math.Pow` over `Flt`: `nan` when either argument is `nan` (the IEEE
exceptions `pow(NaN, 0) = pow(1, NaN) = 1` cannot occur here: every exponent
in the source is a nonzero finite literal); the oracle value otherwise. -/
def Flt.powF (env : MathEnv) : Flt → Flt → Flt
  | fin a, fin b => fin (env.pow a b)
  | _, _ => nan

/-- `math.Exp` over `Flt`: `nan` on `nan` (IEEE); the oracle value
otherwise. -/
def Flt.expF (env : MathEnv) : Flt → Flt
  | fin q => fin (env.exp q)
  | nan => nan

/-- `cdSphere` from trajectory.go over the NaN-tracking model; a `nan`
Reynolds number fails every inclusive comparison and lands in the final
`0.18` branch, exactly as IEEE comparisons with NaN do. -/
def Flt.cdSphere (env : MathEnv) (r : Flt) : Flt :=
  if r.ble 0 then 0
  else if r.ble 1.0 then 24.0 / r
  else if r.ble 400.0 then 24 * Flt.powF env r (-0.646)
  else if r.ble 300000 then 0.5
  else if r.ble 2000000 then 3.66e-4 * Flt.powF env r 0.4275
  else 0.18

/-- `viscosity` from trajectory.go over the NaN-tracking model. -/
def Flt.viscosity (env : MathEnv) (theta : Flt) : Flt :=
  let betavisc : Flt := 1.458e-6
  let suth : Flt := 110.4
  let tzero : Flt := 288.15
  let temp := tzero * theta
  betavisc * Flt.sqrtF env (temp * temp * temp) / (temp + suth)

/-- `simpleAtmosphere` from trajectory.go over the NaN-tracking model. -/
def Flt.simpleAtmosphere (env : MathEnv) (alt : Flt) : Flt × Flt × Flt :=
  let rearth : Flt := 6369.0
  let gmr : Flt := 34.163195
  let h := alt * rearth / (alt + rearth)
  if h.blt 11.0 then
    let theta := 1.0 + (-6.5 / 288.15) * h
    let delta := Flt.powF env theta (gmr / 6.5)
    (delta / theta, delta, theta)
  else
    let theta := 216.65 / 288.15
    let delta := 0.2233611 * Flt.expF env (-gmr * (h - 11.0) / 216.65)
    (delta / theta, delta, theta)

/-- `TrajectoryPoint` over the NaN-tracking model. -/
structure FltPoint where
  Time : Flt
  Position : Flt × Flt
  Velocity : Flt × Flt
  Acceleration : Flt × Flt
deriving DecidableEq, Repr

/-- `accel` from trajectory.go over the NaN-tracking model, mirroring the
rational embedding above term by term. -/
def Flt.accel (env : MathEnv) (time : Flt) (position velocity : Flt × Flt) :
    Flt × Flt :=
  let vsq := Flt.powF env velocity.1 2.0 + Flt.powF env velocity.2 2.0
  let vmag := Flt.sqrtF env vsq
  let unitVelocity := (velocity.1 / vmag, velocity.2 / vmag)
  let atm := Flt.simpleAtmosphere env (0.001 * position.2)
  let density := atm.1 * Flt.fin rhozero
  let q := 0.5 * density * vsq
  let reynolds := density * vmag * Flt.fin diam / Flt.viscosity env atm.2.2
  let cd := Flt.cdSphere env reynolds
  let dragMagnitude := cd * q * Flt.fin sref
  let drag := (-dragMagnitude * unitVelocity.1, -dragMagnitude * unitVelocity.2)
  (drag.1 / Flt.fin mass - Flt.fin g * 0.0, drag.2 / Flt.fin mass - Flt.fin g * 1.0)

/-- `baseballKutta` from trajectory.go over the NaN-tracking model. -/
def Flt.baseballKutta (env : MathEnv) (p1 : FltPoint) (h : Flt) : FltPoint :=
  let t := p1.Time
  let x := p1.Position
  let v := p1.Velocity
  let a1 := Flt.accel env t x v
  let dx1 := (h * v.1, h * v.2)
  let dv1 := (h * a1.1, h * a1.2)
  let x2 := (x.1 + dx1.1 / 2.0, x.2 + dx1.2 / 2.0)
  let v2 := (v.1 + dv1.1 / 2.0, v.2 + dv1.2 / 2.0)
  let a2 := Flt.accel env (t + h / 2.0) x2 v2
  let dx2 := (h * (v.1 + dv1.1 / 2.0), h * (v.2 + dv1.2 / 2.0))
  let dv2 := (h * a2.1, h * a2.2)
  let x3 := (x.1 + dx2.1 / 2.0, x.2 + dx2.2 / 2.0)
  let v3 := (v.1 + dv2.1 / 2.0, v.2 + dv2.2 / 2.0)
  let a3 := Flt.accel env (t + h / 2.0) x3 v3
  let dx3 := (h * (v.1 + dv2.1 / 2.0), h * (v.2 + dv2.2 / 2.0))
  let dv3 := (h * a3.1, h * a3.2)
  let x4 := (x.1 + dx3.1, x.2 + dx3.2)
  let v4 := (v.1 + dv3.1, v.2 + dv3.2)
  let a4 := Flt.accel env (t + h) x4 v4
  let dx4 := (h * (v.1 + dv3.1), h * (v.2 + dv3.2))
  let dv4 := (h * a4.1, h * a4.2)
  let newTime := t + h
  let newPosition :=
    (p1.Position.1 + (dx1.1 + dx2.1 + dx2.1 + dx3.1 + dx3.1 + dx4.1) / 6.0,
     p1.Position.2 + (dx1.2 + dx2.2 + dx2.2 + dx3.2 + dx3.2 + dx4.2) / 6.0)
  let newVelocity :=
    (p1.Velocity.1 + (dv1.1 + dv2.1 + dv2.1 + dv3.1 + dv3.1 + dv4.1) / 6.0,
     p1.Velocity.2 + (dv1.2 + dv2.2 + dv2.2 + dv3.2 + dv3.2 + dv4.2) / 6.0)
  { Time := newTime
    Position := newPosition
    Velocity := newVelocity
    Acceleration := Flt.accel env newTime newPosition newVelocity }

/-- Iterated RK4 steps over the NaN-tracking model. -/
def Flt.iter (env : MathEnv) (dt : Flt) (p : FltPoint) : Nat → FltPoint
  | 0 => p
  | n + 1 => Flt.baseballKutta env (Flt.iter env dt p n) dt

/-! ## Theorems -/

/-- Projection lemma: the RK4 step recomputes the cached acceleration at the
final state (trajectory.go line 204). -/
theorem baseballKutta_acceleration (env : MathEnv) (p : TrajectoryPoint) (h : ℚ) :
    (baseballKutta env p h).Acceleration =
      accel env (baseballKutta env p h).Time (baseballKutta env p h).Position
        (baseballKutta env p h).Velocity := rfl

/-- Projection lemma: the seed point's cached acceleration is the acceleration
function at the seed state (trajectory.go line 222). -/
theorem mkSeed_acceleration (env : MathEnv) (A V θ : ℚ) :
    (mkSeed env A V θ).Acceleration =
      accel env (mkSeed env A V θ).Time (mkSeed env A V θ).Position
        (mkSeed env A V θ).Velocity := rfl

/-- C1 (amended): the cache invariant — `Acceleration` equals the acceleration
function at exactly the point's `(Time, Position, Velocity)` — holds for the
seed point of a batch run and for every point returned by the RK4 step.  (The
corrected final point of Boundary Correction does not satisfy it in general:
see the counterexample.) -/
theorem cacheInvariant_seed_and_rk4 :
    (∀ (env : MathEnv) (A V θ : ℚ),
      (mkSeed env A V θ).Acceleration =
        accel env (mkSeed env A V θ).Time (mkSeed env A V θ).Position
          (mkSeed env A V θ).Velocity) ∧
    (∀ (env : MathEnv) (p : TrajectoryPoint) (h : ℚ),
      (baseballKutta env p h).Acceleration =
        accel env (baseballKutta env p h).Time (baseballKutta env p h).Position
          (baseballKutta env p h).Velocity) :=
  ⟨fun env A V θ => mkSeed_acceleration env A V θ,
   fun env p h => baseballKutta_acceleration env p h⟩

/-- C1 counterexample: in the terminating batch run
`Trajectory env1 0 6 90 1 false 5` the corrected final point produced by
Boundary Correction violates the cache invariant: its stored (interpolated)
acceleration differs from the value of the acceleration function at its own
`(Time, Position, Velocity)` triple. -/
theorem cacheInvariant_corrected_cex :
    (Trajectory env1 0 6 90 1 false 5).isSome = true ∧
    cexFinal.Acceleration ≠ accel env1 cexFinal.Time cexFinal.Position cexFinal.Velocity :=
  of_decide_eq_true (by with_unfolding_all rfl)

/-- C3: the RK4 step of trajectory.go is exactly the classic 4-stage
Runge-Kutta scheme on the coupled position/velocity system as described by the
spec: slopes at the start state, at two half-step-advanced midpoint states and
at the full-step endpoint state, combined with weights 1,2,2,1 over 6; the
output time is `p.Time + h` and the output acceleration is recomputed by
calling the acceleration function at the final state. -/
theorem baseballKutta_is_classic_rk4 (env : MathEnv) (p : TrajectoryPoint) (h : ℚ) :
    baseballKutta env p h = rk4SpecStep env p h := by
  simp only [baseballKutta, rk4SpecStep, TrajectoryPoint.mk.injEq, Prod.mk.injEq]
  refine ⟨trivial, ⟨?_, ?_⟩, ⟨?_, ?_⟩, ?_⟩ <;> ring_nf

/-- C4: the drag coefficient function returns by exactly the five-regime
piecewise scheme of the spec, with inclusive upper boundaries and the
lower-band tie-break; in particular `cdSphere 1 = 24` for every oracle, i.e.
through the `Re ≤ 1` branch `24/Re` and independently of the `pow` used by
the next band. -/
theorem cdSphere_piecewise (env : MathEnv) (r : ℚ) :
    (r ≤ 0 → cdSphere env r = 0) ∧
    (0 < r → r ≤ 1 → cdSphere env r = 24 / r) ∧
    (1 < r → r ≤ 400 → cdSphere env r = 24 * env.pow r (-0.646)) ∧
    (400 < r → r ≤ 300000 → cdSphere env r = 0.5) ∧
    (300000 < r → r ≤ 2000000 → cdSphere env r = 3.66e-4 * env.pow r 0.4275) ∧
    (2000000 < r → cdSphere env r = 0.18) ∧
    cdSphere env 1 = 24 := by
  refine ⟨fun h0 => ?_, fun h0 h1 => ?_, fun h0 h1 => ?_, fun h0 h1 => ?_,
    fun h0 h1 => ?_, fun h0 => ?_, ?_⟩ <;>
    simp only [cdSphere] <;>
    first
      | (rw [if_pos (by linarith)])
      | (rw [if_neg (by linarith), if_pos (by linarith)])
      | (rw [if_neg (by linarith), if_neg (by linarith), if_pos (by linarith)])
      | (rw [if_neg (by linarith), if_neg (by linarith), if_neg (by linarith),
             if_pos (by linarith)])
      | (rw [if_neg (by linarith), if_neg (by linarith), if_neg (by linarith),
             if_neg (by linarith), if_pos (by linarith)])
      | (rw [if_neg (by linarith), if_neg (by linarith), if_neg (by linarith),
             if_neg (by linarith), if_neg (by linarith)])
  all_goals norm_num

/-- Witness for `cdSphere_piecewise`: each guarded branch applied at a
concrete Reynolds number. -/
theorem cdSphere_piecewise_witness :
    cdSphere env1 (-1) = 0 ∧ cdSphere env1 (1/2) = 24 / (1/2) ∧
    cdSphere env1 2 = 24 * env1.pow 2 (-0.646) ∧ cdSphere env1 500 = 0.5 ∧
    cdSphere env1 400000 = 3.66e-4 * env1.pow 400000 0.4275 ∧
    cdSphere env1 3000000 = 0.18 ∧ cdSphere env1 1 = 24 :=
  ⟨(cdSphere_piecewise env1 (-1)).1 (by norm_num),
   (cdSphere_piecewise env1 (1/2)).2.1 (by norm_num) (by norm_num),
   (cdSphere_piecewise env1 2).2.2.1 (by norm_num) (by norm_num),
   (cdSphere_piecewise env1 500).2.2.2.1 (by norm_num) (by norm_num),
   (cdSphere_piecewise env1 400000).2.2.2.2.1 (by norm_num) (by norm_num),
   (cdSphere_piecewise env1 3000000).2.2.2.2.2.1 (by norm_num),
   (cdSphere_piecewise env1 1).2.2.2.2.2.2⟩

/-- Firing resets the bounding rectangle to the fixed box `R(-1,-1,1,1)`
(src/unnamed/part_001 line 288). -/
theorem fireProjectile_rect (env : MathEnv) (A θ V : ℚ) :
    (fireProjectile env A θ V).rect = Rect.R (-1) (-1) 1 1 := rfl

/-- Firing stores position `(0, initialAltitude)` in the trajectory point. -/
theorem fireProjectile_position (env : MathEnv) (A θ V : ℚ) :
    (fireProjectile env A θ V).trj.Position = (0, A) := by
  simp only [fireProjectile]
  norm_num

/-- `advance` preserves the offset between the rectangle center and the
stored position: the rectangle is translated by exactly the position delta. -/
theorem updateTrajectory_offset (env : MathEnv) (p : Projectile) (dt : ℚ) :
    (updateTrajectory env p dt).rect.center.1 - (updateTrajectory env p dt).trj.Position.1
      = p.rect.center.1 - p.trj.Position.1 ∧
    (updateTrajectory env p dt).rect.center.2 - (updateTrajectory env p dt).trj.Position.2
      = p.rect.center.2 - p.trj.Position.2 := by
  constructor <;> simp only [updateTrajectory, Rect.moved, Rect.center] <;> ring

/-- C8 (amended): firing resets the rectangle to the fixed box
`R(-1,-1,1,1)` centered at `(0,0)` while the stored position is
`(0, initialAltitude)`; `advance` translates the rectangle by exactly the
position delta, so the center-minus-position offset is invariant; hence the
center equals the stored position after fire and after every advance exactly
when the initial altitude is zero (it differs by `(0, initialAltitude)` in
general, see the counterexample). -/
theorem projectile_rect_tracking_amended :
    (∀ (env : MathEnv) (A θ V : ℚ),
      (fireProjectile env A θ V).rect = Rect.R (-1) (-1) 1 1 ∧
      (fireProjectile env A θ V).rect.center = (0, 0) ∧
      (fireProjectile env A θ V).trj.Position = (0, A)) ∧
    (∀ (env : MathEnv) (p : Projectile) (dt : ℚ),
      (updateTrajectory env p dt).rect.center.1 - (updateTrajectory env p dt).trj.Position.1
        = p.rect.center.1 - p.trj.Position.1 ∧
      (updateTrajectory env p dt).rect.center.2 - (updateTrajectory env p dt).trj.Position.2
        = p.rect.center.2 - p.trj.Position.2) ∧
    (∀ (env : MathEnv) (θ V dt : ℚ) (n : Nat),
      (advanceN env dt (fireProjectile env 0 θ V) n).rect.center
        = (advanceN env dt (fireProjectile env 0 θ V) n).trj.Position) := by
  refine ⟨fun env A θ V => ⟨rfl, ?_, fireProjectile_position env A θ V⟩,
    fun env p dt => updateTrajectory_offset env p dt, ?_⟩
  · simp only [fireProjectile, Rect.R, Rect.center]
    norm_num
  · intro env θ V dt n
    induction n with
    | zero =>
      show (fireProjectile env 0 θ V).rect.center = (fireProjectile env 0 θ V).trj.Position
      simp only [fireProjectile, Rect.R, Rect.center]
      norm_num
    | succ n ih =>
      have h := updateTrajectory_offset env (advanceN env dt (fireProjectile env 0 θ V) n) dt
      have h1 := h.1
      have h2 := h.2
      rw [ih] at h1 h2
      simp only [sub_self] at h1 h2
      show (updateTrajectory env (advanceN env dt (fireProjectile env 0 θ V) n) dt).rect.center
        = (updateTrajectory env (advanceN env dt (fireProjectile env 0 θ V) n) dt).trj.Position
      have e1 := sub_eq_zero.mp h1
      have e2 := sub_eq_zero.mp h2
      exact Prod.ext e1 e2

/-- C8 counterexample: immediately after firing at initial altitude 1 the
rectangle center `(0,0)` differs from the stored position `(0,1)`. -/
theorem projectile_rect_center_cex :
    (fireProjectile env0 1 0 1).rect.center ≠ (fireProjectile env0 1 0 1).trj.Position :=
  of_decide_eq_true (by with_unfolding_all rfl)

/-- Concrete terminating run shared by several concrete instantiations: the
horizontal launch `Trajectory env0 0 1 0 1 false 2` crosses the boundary on
its first RK4 step, so the interpolation fraction is 0 and the corrected
final point coincides with the seed. -/
theorem run_env0_eq : Trajectory env0 0 1 0 1 false 2
    = some [mkSeed env0 0 1 0, mkSeed env0 0 1 0] := by
  with_unfolding_all rfl

/-- The seed of the shared concrete run has nonzero velocity. -/
theorem seed_env0_velocity : (mkSeed env0 0 1 0).Velocity ≠ ((0 : ℚ), (0 : ℚ)) :=
  of_decide_eq_true (by with_unfolding_all rfl)

/-- C2 counterexample: the horizontal launch `Trajectory env0 0 1 0 1 false 2`
(nonzero initial speed, time step 1) terminates, but its output times are
`[0, 0]`: the boundary is crossed on the first RK4 step, the interpolation
fraction is 0, and the corrected final point repeats the seed's time, so the
sequence is not strictly time-ascending. -/
theorem trajectory_ascending_cex :
    (Trajectory env0 0 1 0 1 false 2).isSome = true ∧
    (mkSeed env0 0 1 0).Velocity ≠ ((0 : ℚ), (0 : ℚ)) ∧
    ((Trajectory env0 0 1 0 1 false 2).getD []).map (fun p => p.Time) = [0, 0] ∧
    ¬ List.Chain' (fun p q => p.Time < q.Time) ((Trajectory env0 0 1 0 1 false 2).getD []) := by
  have hT := run_env0_eq
  have hv := seed_env0_velocity
  refine ⟨by rw [hT]; rfl, hv, ?_, ?_⟩
  · rw [hT]
    simp only [Option.getD_some, List.map_cons, List.map_nil, mkSeed]
    norm_num
  · rw [hT]
    simp only [Option.getD_some, List.chain'_cons, List.chain'_singleton, and_true]
    exact lt_irrefl _

/-- Unfolding of one RK4 iterate from the front. -/
theorem iterP_succ_front (env : MathEnv) (dt : ℚ) (p : TrajectoryPoint) (n : Nat) :
    iterP env dt p (n + 1) = iterP env dt (baseballKutta env p dt) n := by
  induction n with
  | zero => rfl
  | succ n ih =>
    show baseballKutta env (iterP env dt p (n + 1)) dt = _
    rw [ih]
    rfl

/-- The time of the `n`-th RK4 iterate. -/
theorem iterP_time (env : MathEnv) (dt : ℚ) (p : TrajectoryPoint) (n : Nat) :
    (iterP env dt p n).Time = p.Time + n * dt := by
  induction n with
  | zero => simp [iterP]
  | succ n ih =>
    show (baseballKutta env (iterP env dt p n) dt).Time = _
    have : (baseballKutta env (iterP env dt p n) dt).Time = (iterP env dt p n).Time + dt := rfl
    rw [this, ih]
    push_cast
    ring

/-- Soundness of the boundary-crossing loop: a successful run appends the
first `K` RK4 iterates of the current point, where `K ≥ 1` is the first index
whose altitude does not exceed the initial altitude. -/
theorem trajectoryLoop_some (env : MathEnv) (dt A : ℚ) :
    ∀ (fuel : Nat) (cur : TrajectoryPoint) (hist out : List TrajectoryPoint),
      trajectoryLoop env dt A fuel cur hist = some out →
      ∃ K : Nat, 1 ≤ K ∧
        out = hist ++ (List.range K).map (fun j => iterP env dt cur (j + 1)) ∧
        (∀ j : Nat, j + 1 < K → A < (iterP env dt cur (j + 1)).Position.2) ∧
        (iterP env dt cur K).Position.2 ≤ A := by
  intro fuel
  induction fuel with
  | zero => intro cur hist out h; exact absurd h (by simp [trajectoryLoop])
  | succ fuel ih =>
    intro cur hist out h
    rw [trajectoryLoop] at h
    by_cases hlt : A < (baseballKutta env cur dt).Position.2
    · rw [if_pos hlt] at h
      obtain ⟨K', hK1, hout, hguard, hfin⟩ := ih (baseballKutta env cur dt)
        (hist ++ [baseballKutta env cur dt]) out h
      refine ⟨K' + 1, by omega, ?_, ?_, ?_⟩
      · rw [hout, List.range_succ_eq_map, List.map_cons, List.map_map]
        have hfun : ((fun j => iterP env dt cur (j + 1)) ∘ Nat.succ)
            = fun j => iterP env dt (baseballKutta env cur dt) (j + 1) := by
          funext j
          show iterP env dt cur (j + 1 + 1) = _
          rw [iterP_succ_front]
        rw [hfun]
        have h1 : iterP env dt cur 1 = baseballKutta env cur dt := rfl
        rw [h1]
        simp [List.append_assoc]
      · intro j hj
        match j with
        | 0 => exact hlt
        | j' + 1 =>
          rw [iterP_succ_front]
          exact hguard j' (by omega)
      · rw [iterP_succ_front]
        exact hfin
    · rw [if_neg hlt] at h
      refine ⟨1, le_refl 1, ?_, by omega, not_lt.mp hlt⟩
      have h1 : iterP env dt cur 1 = baseballKutta env cur dt := rfl
      have h2 : List.range 1 = [0] := rfl
      rw [h2, List.map_cons, List.map_nil, h1]
      exact (Option.some_inj.mp h).symm

/-- Sufficiency of fuel: if the `K`-th iterate (for some `K ≥ 1`) is at or
below the initial altitude, the loop halts within `K` iterations. -/
theorem trajectoryLoop_total (env : MathEnv) (dt A : ℚ) :
    ∀ (K : Nat) (cur : TrajectoryPoint) (hist : List TrajectoryPoint),
      1 ≤ K → (iterP env dt cur K).Position.2 ≤ A →
      ∃ out, trajectoryLoop env dt A K cur hist = some out := by
  intro K
  induction K with
  | zero => intro cur hist h; omega
  | succ K ih =>
    intro cur hist _ hfin
    rw [trajectoryLoop]
    by_cases hlt : A < (baseballKutta env cur dt).Position.2
    · rw [if_pos hlt]
      match K, hfin with
      | 0, hfin =>
        exact absurd hlt (not_lt.mpr (by exact hfin))
      | K' + 1, hfin =>
        refine ih (baseballKutta env cur dt) _ (by omega) ?_
        rw [← iterP_succ_front]
        exact hfin
    · rw [if_neg hlt]
      exact ⟨_, rfl⟩

/-- Indexing a mapped range. -/
theorem getD_map_range (f : Nat → TrajectoryPoint) (K i : Nat) (h : i < K)
    (d : TrajectoryPoint) : ((List.range K).map f).getD i d = f i := by
  rw [List.getD_eq_getElem _ _ (by simpa using h)]
  simp

/-- The mapped range `0..K` splits off its head. -/
theorem map_range_succ_cons (f : Nat → TrajectoryPoint) (K : Nat) :
    (List.range (K + 1)).map f = f 0 :: (List.range K).map (fun j => f (j + 1)) := by
  rw [List.range_succ_eq_map, List.map_cons, List.map_map]
  rfl

/-- Shape of every terminating batch run: there is a crossing index `K ≥ 1`
such that all strictly earlier iterates (after the seed) stay strictly above
the initial altitude, the `K`-th iterate is at or below it, and the output is
the raw history (iterates `0..K-1` plus the corrected point), re-based
pointwise when the normalized flag is set. -/
theorem Trajectory_shape (env : MathEnv) (A V θ dt : ℚ) (norm : Bool) (fuel : Nat)
    (out : List TrajectoryPoint) (hT : Trajectory env A V θ dt norm fuel = some out) :
    ∃ K : Nat, 1 ≤ K ∧
      (∀ j : Nat, j + 1 < K → A < (iterP env dt (mkSeed env A V θ) (j + 1)).Position.2) ∧
      (iterP env dt (mkSeed env A V θ) K).Position.2 ≤ A ∧
      out = if norm then (rawHist env A V θ dt K).map (normPt A)
            else rawHist env A V θ dt K := by
  simp only [Trajectory] at hT
  cases heq : trajectoryLoop env dt A fuel (mkSeed env A V θ) [mkSeed env A V θ] with
  | none => rw [heq] at hT; exact absurd hT (by simp)
  | some hist =>
    rw [heq] at hT
    simp only [Option.some_inj] at hT
    obtain ⟨K, hK1, hout, hguard, hfin⟩ :=
      trajectoryLoop_some env dt A fuel (mkSeed env A V θ) [mkSeed env A V θ] hist heq
    have hhist : hist = (List.range (K + 1)).map (fun i => iterP env dt (mkSeed env A V θ) i) := by
      rw [hout, map_range_succ_cons]
      rfl
    have hlen : hist.length = K + 1 := by
      rw [hhist]; simp
    have hsplit : (List.range (K + 1)).map (fun i => iterP env dt (mkSeed env A V θ) i)
        = (List.range K).map (fun i => iterP env dt (mkSeed env A V θ) i)
          ++ [iterP env dt (mkSeed env A V θ) K] := by
      rw [List.range_succ, List.map_append]
      rfl
    have hgetD : hist.getD (hist.length - 2) defaultPoint
        = iterP env dt (mkSeed env A V θ) (K - 1) := by
      rw [hhist]
      have hl2 : ((List.range (K + 1)).map
          (fun i => iterP env dt (mkSeed env A V θ) i)).length = K + 1 := by simp
      rw [hl2]
      have : K + 1 - 2 = K - 1 := by omega
      rw [this]
      exact getD_map_range _ _ _ (by omega) _
    have hgetLast : hist.getLastD defaultPoint = iterP env dt (mkSeed env A V θ) K := by
      rw [hhist, hsplit]
      exact List.getLastD_concat _ _ _
    have hdropLast : hist.dropLast
        = (List.range K).map (fun i => iterP env dt (mkSeed env A V θ) i) := by
      rw [hhist, hsplit]
      exact List.dropLast_concat
    refine ⟨K, hK1, hguard, hfin, ?_⟩
    rw [← hT, hgetD, hgetLast, hdropLast]
    have hhead : ((List.range K).map (fun i => iterP env dt (mkSeed env A V θ) i)
        ++ [correctFinalPosition A (iterP env dt (mkSeed env A V θ) (K - 1))
              (iterP env dt (mkSeed env A V θ) K)]).headD defaultPoint
        = mkSeed env A V θ := by
      obtain ⟨K', rfl⟩ : ∃ K', K = K' + 1 := ⟨K - 1, by omega⟩
      rw [map_range_succ_cons]
      rfl
    rw [hhead]
    have hA : (mkSeed env A V θ).Position.2 = A := rfl
    rw [hA]
    simp only [rawHist, correctedAt, normPt]
    rfl

/-- C7: the batch generator terminates (for some fuel; the Go loop has no
iteration cap) exactly when some RK4 iterate of the seed — the first one
being computed unconditionally by the do-while — has altitude at or below the
initial altitude; contrapositively, when every iterate stays strictly above
the initial altitude the call does not terminate for any fuel. -/
theorem trajectory_termination_iff (env : MathEnv) (A V θ dt : ℚ) (norm : Bool) :
    (∃ fuel : Nat, (Trajectory env A V θ dt norm fuel).isSome = true) ↔
    (∃ K : Nat, 1 ≤ K ∧ (iterP env dt (mkSeed env A V θ) K).Position.2 ≤ A) := by
  constructor
  · rintro ⟨fuel, hsome⟩
    obtain ⟨out, hT⟩ := Option.isSome_iff_exists.mp hsome
    obtain ⟨K, hK1, _, hfin, _⟩ := Trajectory_shape env A V θ dt norm fuel out hT
    exact ⟨K, hK1, hfin⟩
  · rintro ⟨K, hK1, hfin⟩
    obtain ⟨hist, hloop⟩ :=
      trajectoryLoop_total env dt A K (mkSeed env A V θ) [mkSeed env A V θ] hK1 hfin
    refine ⟨K, ?_⟩
    simp only [Trajectory]
    rw [hloop]
    rfl

/-- The seed's time is zero, so the `n`-th iterate is at time `n * dt`. -/
theorem iterP_seed_time (env : MathEnv) (A V θ dt : ℚ) (n : Nat) :
    (iterP env dt (mkSeed env A V θ) n).Time = n * dt := by
  rw [iterP_time]
  have h0 : (mkSeed env A V θ).Time = 0 := by norm_num [mkSeed]
  rw [h0, zero_add]

/-- If the straddling points either start exactly at the boundary (the
first-step case, where the interpolation fraction is 0) or properly straddle
it, the corrected point's altitude is exactly the boundary altitude. -/
theorem corrected_alt (A : ℚ) (p1 p2 : TrajectoryPoint)
    (hcase : p1.Position.2 = A ∨ (A < p1.Position.2 ∧ p2.Position.2 ≤ A)) :
    (correctFinalPosition A p1 p2).Position.2 = A := by
  rcases hcase with h | ⟨h1, h2⟩
  · simp only [correctFinalPosition, h, sub_self, zero_div, zero_mul, add_zero]
  · have hden : p2.Position.2 - p1.Position.2 ≠ 0 := by
      intro hz
      have : p2.Position.2 = p1.Position.2 := by linarith
      linarith
    simp only [correctFinalPosition]
    rw [div_mul_cancel₀ _ hden]
    ring

/-- Under the same straddling hypothesis, and when the earlier point's time is
not later than the later point's, the corrected point's time is not earlier
than the earlier point's. -/
theorem corrected_time_ge (A : ℚ) (p1 p2 : TrajectoryPoint)
    (hcase : p1.Position.2 = A ∨ (A < p1.Position.2 ∧ p2.Position.2 ≤ A))
    (ht : p1.Time ≤ p2.Time) :
    p1.Time ≤ (correctFinalPosition A p1 p2).Time := by
  rcases hcase with h | ⟨h1, h2⟩
  · simp only [correctFinalPosition, h, sub_self, zero_div, zero_mul, add_zero, le_refl]
  · have hfrac : 0 < (A - p1.Position.2) / (p2.Position.2 - p1.Position.2) := by
      apply div_pos_iff.mpr
      right
      constructor <;> linarith
    simp only [correctFinalPosition]
    nlinarith

/-- C2 (amended): for every terminating batch run with a positive time step
and nonzero initial velocity, all points except possibly the corrected final
one have strictly ascending times, the whole sequence has non-decreasing
times (the final corrected point's time can repeat its predecessor's — it
does exactly when the first RK4 step already crosses the boundary, see the
counterexample), and the last point's altitude equals the initial altitude —
zero when the normalized flag is set — exactly (hence within any epsilon). -/
theorem trajectory_ascending_amended (env : MathEnv) (A V θ dt : ℚ) (norm : Bool)
    (fuel : Nat) (out : List TrajectoryPoint)
    (hv : (mkSeed env A V θ).Velocity ≠ (0, 0)) (hdt : 0 < dt)
    (hT : Trajectory env A V θ dt norm fuel = some out) :
    List.Chain' (fun p q => p.Time < q.Time) out.dropLast ∧
    List.Chain' (fun p q => p.Time ≤ q.Time) out ∧
    (out.getLastD defaultPoint).Position.2 = (if norm then 0 else A) := by
  obtain ⟨K, hK1, hguard, hfin, hout⟩ := Trajectory_shape env A V θ dt norm fuel out hT
  set f : Nat → TrajectoryPoint := fun i => iterP env dt (mkSeed env A V θ) i with hf
  set c : TrajectoryPoint := correctedAt env A V θ dt K with hc
  have hcase : (f (K - 1)).Position.2 = A ∨
      (A < (f (K - 1)).Position.2 ∧ (f K).Position.2 ≤ A) := by
    rcases Nat.lt_or_ge K 2 with hK2 | hK2
    · left
      have : K - 1 = 0 := by omega
      rw [this]
      rfl
    · right
      refine ⟨?_, hfin⟩
      have := hguard (K - 2) (by omega)
      have he : K - 2 + 1 = K - 1 := by omega
      rw [he] at this
      exact this
  have htime : ∀ n : Nat, (f n).Time = n * dt := fun n => iterP_seed_time env A V θ dt n
  have ht12 : (f (K - 1)).Time ≤ (f K).Time := by
    rw [htime, htime]
    have hcast : ((K - 1 : Nat) : ℚ) ≤ (K : ℚ) := by
      exact_mod_cast Nat.sub_le K 1
    exact mul_le_mul_of_nonneg_right hcast (le_of_lt hdt)
  have hchain_lt : List.Chain' (fun p q : TrajectoryPoint => p.Time < q.Time)
      ((List.range K).map f) := by
    rw [List.chain'_map]
    obtain ⟨K', rfl⟩ : ∃ K', K = K' + 1 := ⟨K - 1, by omega⟩
    rw [List.chain'_range_succ]
    intro m _
    rw [htime m, htime (m + 1)]
    push_cast
    nlinarith
  have hctime : (f (K - 1)).Time ≤ c.Time := by
    rw [hc]
    exact corrected_time_ge A (f (K - 1)) (f K) hcase ht12
  have hcalt : c.Position.2 = A := by
    rw [hc]
    exact corrected_alt A (f (K - 1)) (f K) hcase
  have hlast' : ((List.range K).map f).getLast? = some (f (K - 1)) := by
    obtain ⟨K', rfl⟩ : ∃ K', K = K' + 1 := ⟨K - 1, by omega⟩
    rw [List.range_succ, List.map_append]
    simp
  have hraw : rawHist env A V θ dt K = (List.range K).map f ++ [c] := rfl
  have hchain_le_raw : List.Chain' (fun p q : TrajectoryPoint => p.Time ≤ q.Time)
      (rawHist env A V θ dt K) := by
    rw [hraw, List.chain'_append]
    refine ⟨hchain_lt.imp (fun a b hab => le_of_lt hab), List.chain'_singleton c, ?_⟩
    intro x hx y hy
    rw [hlast', Option.mem_some_iff] at hx
    rw [List.head?_cons, Option.mem_some_iff] at hy
    rw [← hx, ← hy]
    exact hctime
  cases norm with
  | false =>
    rw [if_neg (by simp)] at hout
    refine ⟨?_, ?_, ?_⟩
    · rw [hout, hraw, List.dropLast_concat]
      exact hchain_lt
    · rw [hout]
      exact hchain_le_raw
    · rw [hout, hraw, List.getLastD_concat]
      simpa using hcalt
  | true =>
    rw [if_pos rfl] at hout
    have hsplit : (rawHist env A V θ dt K).map (normPt A)
        = ((List.range K).map f).map (normPt A) ++ [normPt A c] := by
      rw [hraw, List.map_append]
      rfl
    refine ⟨?_, ?_, ?_⟩
    · rw [hout, hsplit, List.dropLast_concat, List.chain'_map]
      exact hchain_lt.imp (fun a b hab => by simpa [normPt] using hab)
    · rw [hout, List.chain'_map]
      exact hchain_le_raw.imp (fun a b hab => by simpa [normPt] using hab)
    · rw [hout, hsplit, List.getLastD_concat]
      simp only [normPt, hcalt, sub_self]
      rw [if_pos trivial]

/-- Witness for `trajectory_ascending_amended`: the shared concrete run. -/
theorem trajectory_ascending_amended_witness :
    List.Chain' (fun p q : TrajectoryPoint => p.Time < q.Time)
      ([mkSeed env0 0 1 0, mkSeed env0 0 1 0].dropLast) ∧
    List.Chain' (fun p q : TrajectoryPoint => p.Time ≤ q.Time)
      [mkSeed env0 0 1 0, mkSeed env0 0 1 0] ∧
    (([mkSeed env0 0 1 0, mkSeed env0 0 1 0] : List TrajectoryPoint).getLastD
        defaultPoint).Position.2 = (if false then 0 else 0) :=
  trajectory_ascending_amended env0 0 1 0 1 false 2 _ seed_env0_velocity (by norm_num)
    run_env0_eq

/-- The `n`-times advanced projectile stores the `n`-th RK4 iterate of its
initial point. -/
theorem advanceN_trj (env : MathEnv) (dt : ℚ) (p : Projectile) (n : Nat) :
    (advanceN env dt p n).trj = iterP env dt p.trj n := by
  induction n with
  | zero => rfl
  | succ n ih =>
    show (updateTrajectory env (advanceN env dt p n) dt).trj = _
    simp only [updateTrajectory, UpdateRK4]
    rw [ih]
    rfl

/-- Firing seeds the stored trajectory point exactly as the batch generator
does. -/
theorem fireProjectile_trj (env : MathEnv) (A θ V : ℚ) :
    (fireProjectile env A θ V).trj = mkSeed env A V θ := rfl

/-- C10: every terminating batch run returns at least two points; before
normalization (flag off) its first element is exactly the seed point and
every point strictly between the first and the last has altitude strictly
greater than the initial altitude. -/
theorem trajectory_shape_invariant (env : MathEnv) (A V θ dt : ℚ) (norm : Bool)
    (fuel : Nat) (out : List TrajectoryPoint)
    (hT : Trajectory env A V θ dt norm fuel = some out) :
    2 ≤ out.length ∧
    (norm = false →
      out.headD defaultPoint = mkSeed env A V θ ∧
      ∀ i : Nat, 0 < i → i + 1 < out.length →
        A < (out.getD i defaultPoint).Position.2) := by
  obtain ⟨K, hK1, hguard, _, hout⟩ := Trajectory_shape env A V θ dt norm fuel out hT
  set f : Nat → TrajectoryPoint := fun i => iterP env dt (mkSeed env A V θ) i with hf
  have hlen : out.length = K + 1 := by
    cases norm with
    | false => rw [hout, if_neg (by simp)]; simp [rawHist]
    | true => rw [hout, if_pos rfl]; simp [rawHist]
  refine ⟨by omega, fun hnorm => ?_⟩
  subst hnorm
  rw [if_neg (by simp)] at hout
  constructor
  · rw [hout, rawHist]
    obtain ⟨K', rfl⟩ : ∃ K', K = K' + 1 := ⟨K - 1, by omega⟩
    rw [map_range_succ_cons]
    rfl
  · intro i hi0 hilen
    rw [hlen] at hilen
    have hiK : i < K := by omega
    have hgetD : out.getD i defaultPoint = f i := by
      rw [hout, rawHist, List.getD_append _ _ _ _ (by simpa using hiK)]
      exact getD_map_range _ _ _ hiK _
    rw [hgetD]
    obtain ⟨i', rfl⟩ : ∃ i', i = i' + 1 := ⟨i - 1, by omega⟩
    exact hguard i' (by omega)

/-- Witness for `trajectory_shape_invariant`: the shared concrete run. -/
theorem trajectory_shape_invariant_witness :
    2 ≤ ([mkSeed env0 0 1 0, mkSeed env0 0 1 0] : List TrajectoryPoint).length ∧
    ([mkSeed env0 0 1 0, mkSeed env0 0 1 0] : List TrajectoryPoint).headD defaultPoint
      = mkSeed env0 0 1 0 :=
  ⟨(trajectory_shape_invariant env0 0 1 0 1 false 2 _ run_env0_eq).1,
   ((trajectory_shape_invariant env0 0 1 0 1 false 2 _ run_env0_eq).2 rfl).1⟩

/-- C9: for every terminating batch run with the normalized flag off, and
every index `N` before the boundary crossing, advancing a fired projectile
`N` times with the same step from the same initial condition yields exactly
the position and velocity of the batch run's `(N+1)`-th point (the
un-corrected RK4 iterate); equality is exact in this model, hence within any
floating-point tolerance. -/
theorem incremental_batch_equiv (env : MathEnv) (A V θ dt : ℚ) (fuel : Nat)
    (out : List TrajectoryPoint)
    (hT : Trajectory env A V θ dt false fuel = some out) :
    ∀ N : Nat, N + 1 < out.length →
      (advanceN env dt (fireProjectile env A θ V) N).trj.Position
        = (out.getD N defaultPoint).Position ∧
      (advanceN env dt (fireProjectile env A θ V) N).trj.Velocity
        = (out.getD N defaultPoint).Velocity := by
  obtain ⟨K, hK1, _, _, hout⟩ := Trajectory_shape env A V θ dt false fuel out hT
  rw [if_neg (by simp)] at hout
  have hlen : out.length = K + 1 := by rw [hout]; simp [rawHist]
  intro N hN
  rw [hlen] at hN
  have hNK : N < K := by omega
  have hgetD : out.getD N defaultPoint = iterP env dt (mkSeed env A V θ) N := by
    rw [hout, rawHist, List.getD_append _ _ _ _ (by simpa using hNK)]
    exact getD_map_range _ _ _ hNK _
  have htrj : (advanceN env dt (fireProjectile env A θ V) N).trj
      = iterP env dt (mkSeed env A V θ) N := by
    rw [advanceN_trj, fireProjectile_trj]
  rw [hgetD, htrj]
  exact ⟨rfl, rfl⟩

/-- Witness for `incremental_batch_equiv`: the shared concrete run at `N = 0`. -/
theorem incremental_batch_equiv_witness :
    (advanceN env0 1 (fireProjectile env0 0 0 1) 0).trj.Position
      = (([mkSeed env0 0 1 0, mkSeed env0 0 1 0] : List TrajectoryPoint).getD 0
          defaultPoint).Position ∧
    (advanceN env0 1 (fireProjectile env0 0 0 1) 0).trj.Velocity
      = (([mkSeed env0 0 1 0, mkSeed env0 0 1 0] : List TrajectoryPoint).getD 0
          defaultPoint).Velocity :=
  incremental_batch_equiv env0 0 1 0 1 2 _ run_env0_eq 0 (by norm_num)

/-- The collision fold is a disjunction over the projectile list. -/
theorem detectCollision_foldl (t : Rect) : ∀ (ps : List Projectile) (b : Bool),
    ps.foldl
      (fun hit prj =>
        if t.norm.intersect prj.rect.norm ≠ Rect.R 0 0 0 0 then true else hit) b
      = (b || ps.any fun prj =>
          decide (t.norm.intersect prj.rect.norm ≠ Rect.R 0 0 0 0)) := by
  intro ps
  induction ps with
  | nil => intro b; simp
  | cons p ps ih =>
    intro b
    rw [List.foldl_cons, ih, List.any_cons]
    by_cases hp : t.norm.intersect p.rect.norm ≠ Rect.R 0 0 0 0
    · rw [if_pos hp]
      simp [hp]
    · rw [if_neg hp]
      simp [hp]

/-- The pixel intersection is a non-zero rectangle exactly when the two
rectangles overlap with positive width and positive height. -/
theorem intersect_ne_zero_iff (r s : Rect) :
    (r.intersect s ≠ Rect.R 0 0 0 0) ↔
      (max r.Min.1 s.Min.1 < min r.Max.1 s.Max.1 ∧
       max r.Min.2 s.Min.2 < min r.Max.2 s.Max.2) := by
  by_cases hg : min r.Max.1 s.Max.1 ≤ max r.Min.1 s.Min.1 ∨
      min r.Max.2 s.Max.2 ≤ max r.Min.2 s.Min.2
  · have : r.intersect s = Rect.R 0 0 0 0 := by
      rw [Rect.intersect, if_pos hg]
    simp only [this, ne_eq, not_true_eq_false, false_iff]
    intro ⟨h1, h2⟩
    rcases hg with hg | hg <;> linarith
  · push_neg at hg
    have : r.intersect s = Rect.R (max r.Min.1 s.Min.1) (max r.Min.2 s.Min.2)
        (min r.Max.1 s.Max.1) (min r.Max.2 s.Max.2) := by
      rw [Rect.intersect, if_neg (by push_neg; exact hg)]
    rw [this]
    constructor
    · intro _
      exact ⟨hg.1, hg.2⟩
    · intro _ heq
      have h1 : max r.Min.1 s.Min.1 = 0 := congrArg (fun q => q.Min.1) heq
      have h2 : min r.Max.1 s.Max.1 = 0 := congrArg (fun q => q.Max.1) heq
      have := hg.1
      rw [h1, h2] at this
      exact lt_irrefl 0 this

/-- Two open rectangle interiors intersect exactly when the corner bounds
overlap strictly on both axes. -/
theorem interiorSet_inter_nonempty_iff (a b : Rect) :
    (a.interiorSet ∩ b.interiorSet : Set Vec2).Nonempty ↔
      (max a.Min.1 b.Min.1 < min a.Max.1 b.Max.1 ∧
       max a.Min.2 b.Min.2 < min a.Max.2 b.Max.2) := by
  constructor
  · rintro ⟨v, hva, hvb⟩
    obtain ⟨ha1, ha2, ha3, ha4⟩ := hva
    obtain ⟨hb1, hb2, hb3, hb4⟩ := hvb
    constructor
    · exact lt_trans (max_lt ha1 hb1) (lt_min ha2 hb2)
    · exact lt_trans (max_lt ha3 hb3) (lt_min ha4 hb4)
  · rintro ⟨hx, hy⟩
    refine ⟨((max a.Min.1 b.Min.1 + min a.Max.1 b.Max.1) / 2,
             (max a.Min.2 b.Min.2 + min a.Max.2 b.Max.2) / 2), ?_, ?_⟩ <;>
      refine ⟨?_, ?_, ?_, ?_⟩ <;>
      simp only [Rect.interiorSet, Set.mem_setOf_eq] <;>
      [skip; skip; skip; skip; skip; skip; skip; skip] <;>
      first
        | (have h1 := le_max_left a.Min.1 b.Min.1
           have h2 := min_le_left a.Max.1 b.Max.1
           linarith)
        | (have h1 := le_max_right a.Min.1 b.Min.1
           have h2 := min_le_right a.Max.1 b.Max.1
           linarith)
        | (have h1 := le_max_left a.Min.2 b.Min.2
           have h2 := min_le_left a.Max.2 b.Max.2
           linarith)
        | (have h1 := le_max_right a.Min.2 b.Min.2
           have h2 := min_le_right a.Max.2 b.Max.2
           linarith)

/-- C5 (amended): the collision predicate is true exactly when some
projectile rectangle's normalized form overlaps the normalized target
rectangle with positive area (non-empty interior intersection) — rectangles
that merely touch along an edge report no hit (see the counterexample); the
two example pairs of the claim behave as stated. -/
theorem detectCollision_iff_overlap_amended :
    (∀ (t : Rect) (ps : List Projectile),
      detectCollision t ps = true ↔
        ∃ p ∈ ps,
          ((t.norm.interiorSet ∩ p.rect.norm.interiorSet : Set Vec2)).Nonempty) ∧
    detectCollision (Rect.R 0 0 2 2) [⟨defaultPoint, Rect.R 1 1 3 3⟩] = true ∧
    detectCollision (Rect.R 0 0 1 1) [⟨defaultPoint, Rect.R 5 5 6 6⟩] = false := by
  refine ⟨?_, of_decide_eq_true (by with_unfolding_all rfl),
    of_decide_eq_true (by with_unfolding_all rfl)⟩
  intro t ps
  show (List.foldl _ false ps) = true ↔ _
  rw [detectCollision_foldl t ps false, Bool.false_or, List.any_eq_true]
  constructor
  · rintro ⟨p, hp, hdec⟩
    refine ⟨p, hp, ?_⟩
    rw [interiorSet_inter_nonempty_iff]
    exact (intersect_ne_zero_iff t.norm p.rect.norm).mp (of_decide_eq_true hdec)
  · rintro ⟨p, hp, hne⟩
    refine ⟨p, hp, ?_⟩
    rw [interiorSet_inter_nonempty_iff] at hne
    exact decide_eq_true ((intersect_ne_zero_iff t.norm p.rect.norm).mpr hne)

/-- C5 counterexample: the rectangles `[(0,0),(1,1)]` and `[(1,0),(2,1)]`
touch along the edge `x = 1`, so their (closed) regions have the non-empty
intersection containing `(1, 1/2)`, yet the collision predicate reports no
hit — "non-empty intersection" in the closed sense does not match the code,
which requires positive overlap width. -/
theorem detectCollision_touching_cex :
    detectCollision (Rect.R 0 0 1 1) [⟨defaultPoint, Rect.R 1 0 2 1⟩] = false ∧
    ((1 : ℚ), (1/2 : ℚ)) ∈ (Rect.R 0 0 1 1).norm.toSet ∧
    ((1 : ℚ), (1/2 : ℚ)) ∈ (Rect.R 1 0 2 1).norm.toSet := by
  refine ⟨of_decide_eq_true (by with_unfolding_all rfl), ?_, ?_⟩ <;>
    · simp only [Rect.toSet, Rect.norm, Rect.R, Set.mem_setOf_eq]
      norm_num

/-- nan absorbs through addition (left). -/
theorem Flt.nan_add (x : Flt) : Flt.nan + x = Flt.nan := by cases x <;> rfl

/-- nan absorbs through addition (right). -/
theorem Flt.add_nan (x : Flt) : x + Flt.nan = Flt.nan := by cases x <;> rfl

/-- nan absorbs through subtraction (left). -/
theorem Flt.nan_sub (x : Flt) : Flt.nan - x = Flt.nan := by cases x <;> rfl

/-- nan absorbs through subtraction (right). -/
theorem Flt.sub_nan (x : Flt) : x - Flt.nan = Flt.nan := by cases x <;> rfl

/-- nan absorbs through multiplication (left). -/
theorem Flt.nan_mul (x : Flt) : Flt.nan * x = Flt.nan := by cases x <;> rfl

/-- nan absorbs through multiplication (right); in particular `0 * nan = nan`
as in IEEE arithmetic. -/
theorem Flt.mul_nan (x : Flt) : x * Flt.nan = Flt.nan := by cases x <;> rfl

/-- nan absorbs through division (left). -/
theorem Flt.nan_div (x : Flt) : Flt.nan / x = Flt.nan := by cases x <;> rfl

/-- nan absorbs through division (right). -/
theorem Flt.div_nan (x : Flt) : x / Flt.nan = Flt.nan := by cases x <;> rfl

/-- nan absorbs through negation. -/
theorem Flt.neg_nan : -Flt.nan = Flt.nan := rfl

/-- Finite values add finitely. -/
theorem Flt.fin_add (a b : ℚ) : Flt.fin a + Flt.fin b = Flt.fin (a + b) := rfl

/-- Finite values multiply finitely. -/
theorem Flt.fin_mul (a b : ℚ) : Flt.fin a * Flt.fin b = Flt.fin (a * b) := rfl

/-- Division of finite values, with the IEEE-style zero-divisor case. -/
theorem Flt.fin_div (a b : ℚ) :
    Flt.fin a / Flt.fin b = if b = 0 then Flt.nan else Flt.fin (a / b) := rfl

/-- `powF` of a nan base is nan. -/
theorem Flt.powF_nan_left (env : MathEnv) (y : Flt) :
    Flt.powF env Flt.nan y = Flt.nan := by cases y <;> rfl

/-- `sqrtF` of nan is nan. -/
theorem Flt.sqrtF_nan (env : MathEnv) : Flt.sqrtF env Flt.nan = Flt.nan := rfl

/-- The acceleration function maps any state with both velocity components
nan to a fully nan acceleration: the unit-velocity division `nan / vmag`
contaminates the drag term, which contaminates both components. -/
theorem Flt.accel_nanVel (env : MathEnv) (t : Flt) (pos : Flt × Flt) :
    Flt.accel env t pos (Flt.nan, Flt.nan) = (Flt.nan, Flt.nan) := by
  simp [Flt.accel, Flt.nan_div, Flt.mul_nan, Flt.nan_sub, Flt.nan_mul, Flt.nan_add,
    Flt.add_nan, Flt.sub_nan, Flt.div_nan, Flt.neg_nan]

/-- Key step: at an exactly zero velocity the acceleration function
performs no check; its unit-velocity computation divides zero by zero
(`vsq = pow(0,2)+pow(0,2) = 0`, `vmag = sqrt 0 = 0`), producing nan in both
acceleration components. -/
theorem Flt.accel_zeroVel (env : MathEnv) (h1 : env.pow 0 2 = 0)
    (h2 : env.sqrt 0 = 0) (t : Flt) (pos : Flt × Flt) :
    Flt.accel env t pos (Flt.fin 0, Flt.fin 0) = (Flt.nan, Flt.nan) := by
  have h22 : (2.0 : ℚ) = 2 := by norm_num
  have hv : Flt.powF env (Flt.fin 0) 2.0 = Flt.fin 0 := by
    show Flt.fin (env.pow 0 (2.0 : ℚ)) = Flt.fin 0
    rw [h22, h1]
  have hs : Flt.sqrtF env (Flt.fin 0) = Flt.fin 0 := by
    show (if (0 : ℚ) < 0 then Flt.nan else Flt.fin (env.sqrt 0)) = Flt.fin 0
    rw [if_neg (lt_irrefl 0), h2]
  have hu : Flt.fin 0 / Flt.fin 0 = Flt.nan := by
    rw [Flt.fin_div, if_pos rfl]
  simp [Flt.accel, hv, hs, hu, Flt.fin_add, Flt.mul_nan, Flt.nan_div, Flt.nan_sub]

/-- One RK4 step from a state with nan velocity keeps position, velocity and
acceleration fully nan. -/
theorem Flt.kutta_nanState (env : MathEnv) (p : FltPoint) (h : Flt)
    (hv : p.Velocity = (Flt.nan, Flt.nan)) :
    (Flt.baseballKutta env p h).Position = (Flt.nan, Flt.nan) ∧
    (Flt.baseballKutta env p h).Velocity = (Flt.nan, Flt.nan) ∧
    (Flt.baseballKutta env p h).Acceleration = (Flt.nan, Flt.nan) := by
  refine ⟨?_, ?_, ?_⟩ <;>
    simp [Flt.baseballKutta, hv, Flt.accel_nanVel, Flt.nan_div, Flt.mul_nan,
      Flt.nan_mul, Flt.nan_add, Flt.add_nan, Flt.nan_sub, Flt.sub_nan, Flt.div_nan]

/-- One RK4 step from a state with exactly zero velocity produces a point
whose position, velocity and acceleration are fully nan. -/
theorem Flt.kutta_zeroVel (env : MathEnv) (h1 : env.pow 0 2 = 0)
    (h2 : env.sqrt 0 = 0) (p : FltPoint) (h : Flt)
    (hv : p.Velocity = (Flt.fin 0, Flt.fin 0)) :
    (Flt.baseballKutta env p h).Position = (Flt.nan, Flt.nan) ∧
    (Flt.baseballKutta env p h).Velocity = (Flt.nan, Flt.nan) ∧
    (Flt.baseballKutta env p h).Acceleration = (Flt.nan, Flt.nan) := by
  refine ⟨?_, ?_, ?_⟩ <;>
    simp [Flt.baseballKutta, hv, Flt.accel_zeroVel env h1 h2, Flt.accel_nanVel,
      Flt.nan_div, Flt.mul_nan, Flt.nan_mul, Flt.nan_add, Flt.add_nan,
      Flt.nan_sub, Flt.sub_nan, Flt.div_nan]

/-- C6: on an input velocity of exactly zero magnitude the acceleration
function (a total function: nothing is checked, no error raised or
recovered) returns nan in both components, and every subsequent RK4 step
from such a point — the first and, inductively, all later ones — propagates
nan through position, velocity and acceleration. -/
theorem accel_zero_velocity_nan (env : MathEnv) (t x1 x2 dtq : ℚ) (n : Nat)
    (h1 : env.pow 0 2 = 0) (h2 : env.sqrt 0 = 0) (hn : 1 ≤ n) :
    Flt.accel env (Flt.fin t) (Flt.fin x1, Flt.fin x2) (Flt.fin 0, Flt.fin 0)
      = (Flt.nan, Flt.nan) ∧
    (Flt.iter env (Flt.fin dtq)
        ⟨Flt.fin t, (Flt.fin x1, Flt.fin x2), (Flt.fin 0, Flt.fin 0),
          Flt.accel env (Flt.fin t) (Flt.fin x1, Flt.fin x2)
            (Flt.fin 0, Flt.fin 0)⟩ n).Position = (Flt.nan, Flt.nan) ∧
    (Flt.iter env (Flt.fin dtq)
        ⟨Flt.fin t, (Flt.fin x1, Flt.fin x2), (Flt.fin 0, Flt.fin 0),
          Flt.accel env (Flt.fin t) (Flt.fin x1, Flt.fin x2)
            (Flt.fin 0, Flt.fin 0)⟩ n).Velocity = (Flt.nan, Flt.nan) ∧
    (Flt.iter env (Flt.fin dtq)
        ⟨Flt.fin t, (Flt.fin x1, Flt.fin x2), (Flt.fin 0, Flt.fin 0),
          Flt.accel env (Flt.fin t) (Flt.fin x1, Flt.fin x2)
            (Flt.fin 0, Flt.fin 0)⟩ n).Acceleration = (Flt.nan, Flt.nan) := by
  refine ⟨Flt.accel_zeroVel env h1 h2 _ _, ?_⟩
  obtain ⟨m, rfl⟩ : ∃ m, n = m + 1 := ⟨n - 1, by omega⟩
  clear hn
  induction m with
  | zero =>
    exact Flt.kutta_zeroVel env h1 h2 _ (Flt.fin dtq) rfl
  | succ m ih =>
    obtain ⟨_, ihv, _⟩ := ih
    exact Flt.kutta_nanState env _ (Flt.fin dtq) ihv

/-- Witness for `accel_zero_velocity_nan`: the concrete oracle `env0`
(whose `pow` and `sqrt` send 0 to 0, as the real library does) at the
origin, unit time step, one RK4 step. -/
theorem accel_zero_velocity_nan_witness :
    Flt.accel env0 (Flt.fin 0) (Flt.fin 0, Flt.fin 0) (Flt.fin 0, Flt.fin 0)
      = (Flt.nan, Flt.nan) ∧
    (Flt.iter env0 (Flt.fin 1)
        ⟨Flt.fin 0, (Flt.fin 0, Flt.fin 0), (Flt.fin 0, Flt.fin 0),
          Flt.accel env0 (Flt.fin 0) (Flt.fin 0, Flt.fin 0)
            (Flt.fin 0, Flt.fin 0)⟩ 1).Position = (Flt.nan, Flt.nan) ∧
    (Flt.iter env0 (Flt.fin 1)
        ⟨Flt.fin 0, (Flt.fin 0, Flt.fin 0), (Flt.fin 0, Flt.fin 0),
          Flt.accel env0 (Flt.fin 0) (Flt.fin 0, Flt.fin 0)
            (Flt.fin 0, Flt.fin 0)⟩ 1).Velocity = (Flt.nan, Flt.nan) ∧
    (Flt.iter env0 (Flt.fin 1)
        ⟨Flt.fin 0, (Flt.fin 0, Flt.fin 0), (Flt.fin 0, Flt.fin 0),
          Flt.accel env0 (Flt.fin 0) (Flt.fin 0, Flt.fin 0)
            (Flt.fin 0, Flt.fin 0)⟩ 1).Acceleration = (Flt.nan, Flt.nan) :=
  accel_zero_velocity_nan env0 0 0 0 1 1 rfl rfl (by norm_num)
